import Mathlib

/-!
Shallow embedding of src/x3f/denoise_opencv.cpp.

The file under verification is a thin orchestration layer over OpenCV
numeric kernels.  Buffers of 16-bit samples are modelled as total
functions from flat indices to integers; a cv::Mat built over such a
buffer is modelled as its logical content (rows, columns, channels and a
pixel function).  The OpenCV numeric kernels (fastNlMeansDenoising,
medianBlur, resize, inpaint) are external library code, out of scope of
the repository; they are modelled as abstract fields of a Kernels
structure, so every theorem below holds for every choice of kernel
numerics.  Wrapper functions record the size semantics that OpenCV
documents and the pipeline relies on (a kernel output has the size the
call requests).  Float strength parameters are modelled as rationals;
the only arithmetic the source performs on them is division and
multiplication by powers of two, which is exact in both models.
-/

namespace X3f

/-- A flat buffer of 16-bit unsigned samples, as the caller owns it.
Sample values are modelled as integers. -/
def Buf : Type := Nat → Int

/-- A flat buffer of 8-bit mask samples. -/
def MBuf : Type := Nat → Nat

/-- The logical content of a cv::Mat: dimensions plus a pixel function
giving the sample at row y, column x, channel c. -/
structure Img where
  rows : Nat
  cols : Nat
  channels : Nat
  px : Nat → Nat → Nat → Int

instance : Inhabited Img := ⟨⟨0, 0, 0, fun _ _ _ => 0⟩⟩

/-- The norm selector passed to fastNlMeansDenoising. -/
inductive NormType where
  | L1 : NormType
  | L2 : NormType
deriving DecidableEq

/-- The interpolation selector passed to cv::resize. -/
inductive Interp where
  | nearest : Interp
  | linear : Interp
  | cubic : Interp
  | area : Interp
deriving DecidableEq

/-- The inpainting method selector passed to cv::inpaint. -/
inductive InpaintMethod where
  | NS : InpaintMethod
  | TELEA : InpaintMethod
deriving DecidableEq

/-- The abstract numeric kernels supplied by the external image library.
Each field returns the pixel function of the produced image; the callers
below add the documented output dimensions.  inpaintSynth gives the value
the inpainting primitive synthesizes at a repaired pixel. -/
structure Kernels where
  nlmeans : Img → List ℚ → Nat → Nat → NormType → (Nat → Nat → Nat → Int)
  median : Img → Nat → (Nat → Nat → Nat → Int)
  resizePx : Img → Nat → Nat → Interp → (Nat → Nat → Nat → Int)
  inpaintSynth : Img → (Nat → Nat → Nat) → Nat → InpaintMethod → (Nat → Nat → Nat → Int)

/-- cv::fastNlMeansDenoising: output has the size of the input. -/
def fastNlMeans (K : Kernels) (img : Img) (h : List ℚ) (tmplWin searchWin : Nat)
    (n : NormType) : Img :=
  ⟨img.rows, img.cols, img.channels, K.nlmeans img h tmplWin searchWin n⟩

/-- cv::medianBlur: output has the size of the input. -/
def medianBlurK (K : Kernels) (img : Img) (k : Nat) : Img :=
  ⟨img.rows, img.cols, img.channels, K.median img k⟩

/-- cv::resize to an explicit target size: output has exactly that size. -/
def resizeK (K : Kernels) (img : Img) (trows tcols : Nat) (m : Interp) : Img :=
  ⟨trows, tcols, img.channels, K.resizePx img trows tcols m⟩

/-- Modelled from the spec: the external inpainting primitive cv::inpaint,
whose numeric code is not part of this repository.  Per the black-box
contract of section 4.6 of the spec, the output has the input size, every
pixel whose mask sample is zero keeps its input value, and every pixel
whose mask sample is non-zero receives the synthesized value supplied by
the abstract kernel field inpaintSynth. -/
def inpaintK (K : Kernels) (img : Img) (mask : Nat → Nat → Nat) (radius : Nat)
    (m : InpaintMethod) : Img :=
  ⟨img.rows, img.cols, img.channels,
   fun y x c =>
     if mask y x = 0 then img.px y x c else K.inpaintSynth img mask radius m y x c⟩

/-- saturate_cast to the unsigned 16-bit range, as used by cv::subtract
with dtype CV_16U. -/
def satU16 (v : Int) : Int := max 0 (min 65535 v)

/-- saturate_cast to the signed 16-bit range, as used by cv::subtract
with dtype CV_16S. -/
def satS16 (v : Int) : Int := max (-32768) (min 32767 v)

/-- cv::subtract with an explicit output depth: elementwise difference
passed through the saturation of that depth; output has the size of the
first operand. -/
def subtractImg (a b : Img) (sat : Int → Int) : Img :=
  ⟨a.rows, a.cols, a.channels, fun y x c => sat (a.px y x c - b.px y x c)⟩

/-- cv::mixChannels extracting one source channel into a fresh
single-channel image. -/
def extractChannel (img : Img) (c : Nat) : Img :=
  ⟨img.rows, img.cols, 1, fun y x _ => img.px y x c⟩

/-- cv::mixChannels writing a single-channel image back into channel c of
a multi-channel image, all other channels untouched. -/
def insertChannel (dst src : Img) (c : Nat) : Img :=
  ⟨dst.rows, dst.cols, dst.channels,
   fun y x ci => if ci = c then src.px y x 0 else dst.px y x ci⟩

/-- cvRound: round half to even, as OpenCV uses to turn a scale factor
into a destination dimension. -/
def cvRound (q : ℚ) : Int :=
  let f := ⌊q⌋
  let r := q - f
  if r < 1/2 then f
  else if 1/2 < r then f + 1
  else if f % 2 = 0 then f else f + 1

/-- Destination dimension of cv::resize called with empty dsize and scale
factor 1/4, as on line 36 of the source. -/
def quarterDim (n : Nat) : Nat := (cvRound ((n : ℚ) * (1/4))).toNat

/-- The cv::Mat built over the caller buffer with a row stride: its
logical content.  Samples outside the logical region are not part of the
Mat. -/
def readView (data : Buf) (rows cols channels rowStride : Nat) : Img :=
  ⟨rows, cols, channels,
   fun y x c =>
     if y < rows ∧ x < cols ∧ c < channels then data (y * rowStride + x * channels + c)
     else 0⟩

/-- The cv::Mat built over the mask buffer with its own stride. -/
def readMask (mask : MBuf) (rows cols maskStride : Nat) : Nat → Nat → Nat :=
  fun y x => if y < rows ∧ x < cols then mask (y * maskStride + x) else 0

/-- One memcpy of n consecutive samples starting at flat index start. -/
def writeRow (buf : Buf) (start n : Nat) (src : Nat → Int) : Buf :=
  fun i => if start ≤ i ∧ i < start + n then src (i - start) else buf i

/-- The write-back loop: for each row y below rows, copy cols*channels
samples of row y of img to flat index y*rowStride of the buffer. -/
def writeBack (rows : Nat) (buf : Buf) (cols channels rowStride : Nat) (img : Img) : Buf :=
  match rows with
  | 0 => buf
  | r + 1 =>
      writeRow (writeBack r buf cols channels rowStride img) (r * rowStride)
        (cols * channels) (fun k => img.px r (k / channels) (k % channels))

/-- Step 1 of the 3-channel path of denoise_nlm_opencv (lines 17 to 21). -/
def bandStage1 (K : Kernels) (img : Img) (h : ℚ) : Img :=
  fastNlMeans K img [0, h, h] 3 11 NormType.L1

/-- Step 2 of the 3-channel path of denoise_nlm_opencv (lines 23 to 29):
extract channel 2, median filter with kernel 3, write back into channel 2. -/
def bandStage2 (K : Kernels) (out : Img) : Img :=
  insertChannel out (medianBlurK K (extractChannel out 2) 3) 2

/-- Step 3 of the 3-channel path of denoise_nlm_opencv (lines 31 to 40):
area downscale by 1/4, denoise with strengths 0, h/8, h/4 and search
window 21, signed residual, bicubic upscale to the full size, saturating
subtraction from the stage-2 result. -/
def bandStage3 (K : Kernels) (out : Img) (h : ℚ) : Img :=
  let sub := resizeK K out (quarterDim out.rows) (quarterDim out.cols) Interp.area
  let sub_dn := fastNlMeans K sub [0, h / 8, h / 4] 3 21 NormType.L1
  let sub_res := subtractImg sub sub_dn satS16
  let res := resizeK K sub_res out.rows out.cols Interp.cubic
  subtractImg out res satU16

/-- denoise_nlm_opencv (lines 9 to 61 of the source). -/
def denoise_nlm_opencv (K : Kernels) (data : Buf) (rows cols channels rowStride : Nat)
    (h : ℚ) : Buf :=
  let img := readView data rows cols channels rowStride
  if channels = 3 then
    writeBack rows data cols channels rowStride
      (bandStage3 K (bandStage2 K (bandStage1 K img h)) h)
  else
    writeBack rows data cols channels rowStride
      (fastNlMeans K img [h] 3 11 NormType.L1)

/-- denoise_quattro_highres_opencv (lines 65 to 97 of the source). -/
def denoise_quattro_highres_opencv (K : Kernels) (data : Buf)
    (rows cols channels rowStride : Nat) (h : ℚ) : Buf :=
  let img := readView data rows cols channels rowStride
  if channels = 3 then
    writeBack rows data cols channels rowStride
      (fastNlMeans K img [0, h, h * 2] 3 11 NormType.L1)
  else
    writeBack rows data cols channels rowStride
      (fastNlMeans K img [h] 3 11 NormType.L1)

/-- bicubic_upscale_opencv (lines 100 to 110 of the source): cv::resize
into the destination Mat at the destination Mat size; Mat::create keeps
the caller buffer since size and type match, so resize writes through the
destination stride, row by row. -/
def bicubic_upscale_opencv (K : Kernels) (src : Buf)
    (srcRows srcCols channels srcStride : Nat) (dst : Buf)
    (dstRows dstCols dstStride : Nat) : Buf :=
  writeBack dstRows dst dstCols channels dstStride
    (resizeK K (readView src srcRows srcCols channels srcStride) dstRows dstCols
      Interp.cubic)

/-- Line 127 of the source: method 0 selects INPAINT_NS, every other
method value selects INPAINT_TELEA. -/
def inpaintMethodSel (method : Int) : InpaintMethod :=
  if method = 0 then InpaintMethod.NS else InpaintMethod.TELEA

/-- cv::split: one single-channel image per channel. -/
def splitChannels (img : Img) : List Img :=
  (List.range img.channels).map (extractChannel img)

/-- cv::merge: channel c of the output reads the c-th single-channel
image of the list. -/
def mergeChannels (rows cols : Nat) (chs : List Img) : Img :=
  ⟨rows, cols, chs.length, fun y x c => (chs.getD c default).px y x 0⟩

/-- inpaint_bad_pixels_opencv (lines 118 to 164 of the source). -/
def inpaint_bad_pixels_opencv (K : Kernels) (data : Buf)
    (rows cols channels rowStride : Nat) (mask : MBuf) (maskStride : Nat)
    (inpaintRadius : Nat) (method : Int) : Buf :=
  let img := readView data rows cols channels rowStride
  let maskV := readMask mask rows cols maskStride
  let m := inpaintMethodSel method
  if channels = 1 then
    writeBack rows data cols 1 rowStride (inpaintK K img maskV inpaintRadius m)
  else
    writeBack rows data cols channels rowStride
      (mergeChannels rows cols
        ((splitChannels img).map (fun ch => inpaintK K ch maskV inpaintRadius m)))

/-- A concrete kernel instance used to exercise the theorems on concrete
inputs: every kernel returns its input pixels and synthesizes zero. -/
def K0 : Kernels :=
  ⟨fun img _ _ _ _ => img.px, fun img _ => img.px, fun img _ _ _ => img.px,
   fun _ _ _ _ => fun _ _ _ => 0⟩

/-- A constant sample buffer used to exercise the theorems. -/
def buf5 : Buf := fun _ => 5

/-- A second sample buffer, differing from buf5 only at flat indices 3
and above. -/
def buf5' : Buf := fun i => if i < 3 then 5 else 7

/-- The all-clear mask. -/
def mask0 : MBuf := fun _ => 0

/-- The all-defective mask. -/
def mask1 : MBuf := fun _ => 1

theorem writeRow_out (buf : Buf) (start n : Nat) (src : Nat → Int) (i : Nat)
    (h : ¬(start ≤ i ∧ i < start + n)) : writeRow buf start n src i = buf i :=
  if_neg h

theorem writeRow_in (buf : Buf) (start n : Nat) (src : Nat → Int) (i : Nat)
    (h1 : start ≤ i) (h2 : i < start + n) : writeRow buf start n src i = src (i - start) :=
  if_pos ⟨h1, h2⟩

theorem writeBack_padding (rows cols channels rowStride : Nat) (buf : Buf) (img : Img)
    (i : Nat) (hi : ∀ y, y < rows → ∀ k, k < cols * channels → i ≠ y * rowStride + k) :
    writeBack rows buf cols channels rowStride img i = buf i := by
  induction rows with
  | zero => rfl
  | succ r ih =>
      show writeRow (writeBack r buf cols channels rowStride img) (r * rowStride)
        (cols * channels) _ i = buf i
      rw [writeRow_out]
      · exact ih (fun y hy k hk => hi y (Nat.lt_succ_of_lt hy) k hk)
      · rintro ⟨h1, h2⟩
        exact hi r (Nat.lt_succ_self r) (i - r * rowStride) (by omega) (by omega)

theorem writeBack_flat (rows cols channels rowStride : Nat) (buf : Buf) (img : Img)
    (y k : Nat) (hstr : cols * channels ≤ rowStride) (hy : y < rows)
    (hk : k < cols * channels) :
    writeBack rows buf cols channels rowStride img (y * rowStride + k) =
      img.px y (k / channels) (k % channels) := by
  induction rows with
  | zero => omega
  | succ r ih =>
      show writeRow (writeBack r buf cols channels rowStride img) (r * rowStride)
        (cols * channels) _ (y * rowStride + k) = _
      by_cases hyr : y = r
      · subst hyr
        rw [writeRow_in _ _ _ _ _ (Nat.le_add_right _ _) (Nat.add_lt_add_left hk _)]
        simp
      · have hy' : y < r := lt_of_le_of_ne (Nat.lt_succ_iff.mp hy) hyr
        have h1 : y * rowStride + k < (y + 1) * rowStride := by
          have : k < rowStride := lt_of_lt_of_le hk hstr
          calc y * rowStride + k < y * rowStride + rowStride := Nat.add_lt_add_left this _
            _ = (y + 1) * rowStride := by ring
        have h2 : (y + 1) * rowStride ≤ r * rowStride :=
          Nat.mul_le_mul_right _ hy'
        rw [writeRow_out]
        · exact ih hy'
        · rintro ⟨hle, _⟩
          exact absurd hle (Nat.not_le.mpr (lt_of_lt_of_le h1 h2))

theorem writeBack_sample (rows cols channels rowStride : Nat) (buf : Buf) (img : Img)
    (y x c : Nat) (hstr : cols * channels ≤ rowStride) (hy : y < rows) (hx : x < cols)
    (hc : c < channels) :
    writeBack rows buf cols channels rowStride img (y * rowStride + x * channels + c) =
      img.px y x c := by
  have hch : 0 < channels := Nat.pos_of_ne_zero (by omega)
  have hk : x * channels + c < cols * channels := by
    calc x * channels + c < x * channels + channels := Nat.add_lt_add_left hc _
      _ = (x + 1) * channels := by ring
      _ ≤ cols * channels := Nat.mul_le_mul_right _ hx
  have := writeBack_flat rows cols channels rowStride buf img y (x * channels + c)
    hstr hy hk
  rw [← Nat.add_assoc] at this
  rw [this]
  have hdiv : (x * channels + c) / channels = x := by
    rw [Nat.mul_comm x channels, Nat.mul_add_div hch, Nat.div_eq_of_lt hc, Nat.add_zero]
  have hmod : (x * channels + c) % channels = c := by
    rw [Nat.mul_comm x channels, Nat.mul_add_mod, Nat.mod_eq_of_lt hc]
  rw [hdiv, hmod]

theorem readView_px (data : Buf) (rows cols channels rowStride : Nat) (y x c : Nat)
    (hy : y < rows) (hx : x < cols) (hc : c < channels) :
    (readView data rows cols channels rowStride).px y x c =
      data (y * rowStride + x * channels + c) :=
  if_pos ⟨hy, hx, hc⟩

theorem readView_congr (data data' : Buf) (rows cols channels rowStride : Nat)
    (hagree : ∀ y x c, y < rows → x < cols → c < channels →
      data (y * rowStride + x * channels + c) = data' (y * rowStride + x * channels + c)) :
    readView data rows cols channels rowStride = readView data' rows cols channels rowStride := by
  unfold readView
  congr 1
  funext y x c
  by_cases h : y < rows ∧ x < cols ∧ c < channels
  · rw [if_pos h, if_pos h]
    exact hagree y x c h.1 h.2.1 h.2.2
  · rw [if_neg h, if_neg h]

theorem readMask_px (mask : MBuf) (rows cols maskStride : Nat) (y x : Nat)
    (hy : y < rows) (hx : x < cols) :
    readMask mask rows cols maskStride y x = mask (y * maskStride + x) :=
  if_pos ⟨hy, hx⟩

theorem getD_range_map (f : Nat → Img) (n c : Nat) (d : Img) (hc : c < n) :
    (((List.range n).map f).getD c d) = f c := by
  rw [List.getD_eq_getElem?_getD, List.getElem?_map, List.getElem?_range hc]
  rfl

theorem inpaintK_px (K : Kernels) (img : Img) (mask : Nat → Nat → Nat) (radius : Nat)
    (m : InpaintMethod) (y x c : Nat) :
    (inpaintK K img mask radius m).px y x c =
      if mask y x = 0 then img.px y x c else K.inpaintSynth img mask radius m y x c :=
  rfl

theorem mergeChannels_px (rows cols : Nat) (img : Img) (f : Img → Img) (c : Nat)
    (hc : c < img.channels) (y x : Nat) :
    (mergeChannels rows cols ((splitChannels img).map f)).px y x c =
      (f (extractChannel img c)).px y x 0 := by
  show ((((List.range img.channels).map (extractChannel img)).map f).getD c default).px
      y x 0 = _
  rw [List.map_map, getD_range_map _ _ _ _ hc]
  rfl

theorem inpaint_single_eq (K : Kernels) (data : Buf) (rows cols rowStride : Nat)
    (mask : MBuf) (maskStride radius : Nat) (method : Int) :
    inpaint_bad_pixels_opencv K data rows cols 1 rowStride mask maskStride radius method =
      writeBack rows data cols 1 rowStride
        (inpaintK K (readView data rows cols 1 rowStride)
          (readMask mask rows cols maskStride) radius (inpaintMethodSel method)) :=
  rfl

theorem inpaint_multi_eq (K : Kernels) (data : Buf) (rows cols channels rowStride : Nat)
    (mask : MBuf) (maskStride radius : Nat) (method : Int) (hch : channels ≠ 1) :
    inpaint_bad_pixels_opencv K data rows cols channels rowStride mask maskStride radius
        method =
      writeBack rows data cols channels rowStride
        (mergeChannels rows cols
          ((splitChannels (readView data rows cols channels rowStride)).map
            (fun ch => inpaintK K ch (readMask mask rows cols maskStride) radius
              (inpaintMethodSel method)))) := by
  simp only [inpaint_bad_pixels_opencv]
  rw [if_neg hch]

/-- C2: for every 3-channel input, the first stage of the band-split
denoise runs the patch-denoise primitive once over the full-resolution
image with per-channel strengths 0, h, h, patch window 3, search window
11 and an L1 distance metric, and its output feeds the remaining stages. -/
theorem primary_denoise_stage (K : Kernels) (data : Buf) (rows cols rowStride : Nat)
    (h : ℚ) :
    denoise_nlm_opencv K data rows cols 3 rowStride h =
      writeBack rows data cols 3 rowStride
        (bandStage3 K
          (bandStage2 K
            (fastNlMeans K (readView data rows cols 3 rowStride) [0, h, h] 3 11
              NormType.L1))
          h) := rfl

/-- C1: the low-frequency correction stage of the 3-channel band-split
denoise downsamples the stage-2 result to 1/4 resolution in each
dimension with area-averaging interpolation, runs the patch-denoise
primitive on it with per-channel strengths 0, h/8, h/4, patch window 3
and search window 21, computes the residual in a signed 16-bit
representation, upsamples the residual to full resolution with bicubic
interpolation, and subtracts it from the stage-2 result saturating to
the unsigned 16-bit range, yielding the final output. -/
theorem low_freq_correction_stage (K : Kernels) (data : Buf) (rows cols rowStride : Nat)
    (h : ℚ) :
    (denoise_nlm_opencv K data rows cols 3 rowStride h =
      writeBack rows data cols 3 rowStride
        (subtractImg
          (bandStage2 K (bandStage1 K (readView data rows cols 3 rowStride) h))
          (resizeK K
            (subtractImg
              (resizeK K
                (bandStage2 K (bandStage1 K (readView data rows cols 3 rowStride) h))
                (quarterDim rows) (quarterDim cols) Interp.area)
              (fastNlMeans K
                (resizeK K
                  (bandStage2 K (bandStage1 K (readView data rows cols 3 rowStride) h))
                  (quarterDim rows) (quarterDim cols) Interp.area)
                [0, h / 8, h / 4] 3 21 NormType.L1)
              satS16)
            rows cols Interp.cubic)
          satU16))
    ∧ (∀ v : Int, -32768 ≤ satS16 v ∧ satS16 v ≤ 32767)
    ∧ (∀ v : Int, 0 ≤ satU16 v ∧ satU16 v ≤ 65535) := by
  refine ⟨rfl, ?_, ?_⟩
  · intro v
    exact ⟨le_max_left _ _, max_le (by norm_num) (min_le_left _ _)⟩
  · intro v
    exact ⟨le_max_left _ _, max_le (by norm_num) (min_le_left _ _)⟩

/-- C7: the second stage of the 3-channel band-split denoise extracts
channel 2 alone, applies a 3x3 median filter to it, and writes it back
into channel 2 in place; every channel other than 2 is unchanged by the
stage. -/
theorem chroma_median_stage (K : Kernels) (data : Buf) (rows cols rowStride : Nat)
    (h : ℚ) :
    (denoise_nlm_opencv K data rows cols 3 rowStride h =
      writeBack rows data cols 3 rowStride
        (bandStage3 K
          (insertChannel (bandStage1 K (readView data rows cols 3 rowStride) h)
            (medianBlurK K
              (extractChannel (bandStage1 K (readView data rows cols 3 rowStride) h) 2) 3)
            2)
          h))
    ∧ (∀ y x c, c ≠ 2 →
        (bandStage2 K (bandStage1 K (readView data rows cols 3 rowStride) h)).px y x c =
          (bandStage1 K (readView data rows cols 3 rowStride) h).px y x c)
    ∧ (∀ y x,
        (bandStage2 K (bandStage1 K (readView data rows cols 3 rowStride) h)).px y x 2 =
          (medianBlurK K
            (extractChannel (bandStage1 K (readView data rows cols 3 rowStride) h) 2)
            3).px y x 0) := by
  refine ⟨rfl, ?_, ?_⟩
  · intro y x c hc
    exact if_neg hc
  · intro y x
    simp [bandStage2, insertChannel]

/-- Witness for C7 at a concrete kernel and buffer. -/
theorem chroma_median_stage_witness :
    (0 : Nat) ≠ 2 ∧
    (bandStage2 K0 (bandStage1 K0 (readView buf5 1 1 3 3) 1)).px 0 0 0 =
      (bandStage1 K0 (readView buf5 1 1 3 3) 1).px 0 0 0 :=
  ⟨by decide, (chroma_median_stage K0 buf5 1 1 3 1).2.1 0 0 0 (by decide)⟩

/-- C3: the simplified high-resolution pipeline runs the patch-denoise
primitive exactly once: for 3-channel input with per-channel strengths
0, h, 2h, patch window 3, search window 11 and the L1 metric, with no
median stage and no low-frequency correction; for single-channel input
with strength h, patch window 3, search window 11 and the L1 metric. -/
theorem quattro_highres_single_pass (K : Kernels) (data : Buf) (rows cols rowStride : Nat)
    (h : ℚ) :
    (denoise_quattro_highres_opencv K data rows cols 3 rowStride h =
      writeBack rows data cols 3 rowStride
        (fastNlMeans K (readView data rows cols 3 rowStride) [0, h, 2 * h] 3 11
          NormType.L1))
    ∧ (denoise_quattro_highres_opencv K data rows cols 1 rowStride h =
      writeBack rows data cols 1 rowStride
        (fastNlMeans K (readView data rows cols 1 rowStride) [h] 3 11 NormType.L1)) := by
  constructor
  · show writeBack rows data cols 3 rowStride
      (fastNlMeans K (readView data rows cols 3 rowStride) [0, h, h * 2] 3 11
        NormType.L1) = _
    rw [mul_comm h 2]
  · rfl

/-- C10: the defect-repair method selector maps exactly the value 0 to
the Navier-Stokes inpainting method and every other method value to the
Telea method, so the entry point behaves identically for every non-zero
method value. -/
theorem inpaint_method_selector_spec (m : Int) (hm : m ≠ 0) (K : Kernels) (data : Buf)
    (rows cols channels rowStride : Nat) (mask : MBuf) (maskStride radius : Nat) :
    inpaintMethodSel 0 = InpaintMethod.NS ∧
    inpaintMethodSel m = InpaintMethod.TELEA ∧
    inpaint_bad_pixels_opencv K data rows cols channels rowStride mask maskStride radius m =
      inpaint_bad_pixels_opencv K data rows cols channels rowStride mask maskStride radius 1 := by
  have hsel : inpaintMethodSel m = InpaintMethod.TELEA := if_neg hm
  refine ⟨rfl, hsel, ?_⟩
  simp [inpaint_bad_pixels_opencv, inpaintMethodSel, hm]

/-- Witness for C10 at the concrete method value 5. -/
theorem inpaint_method_selector_spec_witness :
    (5 : Int) ≠ 0 ∧ inpaintMethodSel 5 = InpaintMethod.TELEA :=
  ⟨by decide, (inpaint_method_selector_spec 5 (by decide) K0 buf5 1 1 1 1 mask0 1 3).2.1⟩

/-- C4: for every multi-channel input to defect repair, the image is
split into independent single-channel images, the inpainting primitive
runs on each channel against the one shared mask (the identical mask for
every channel), and the channels are merged back into one multi-channel
image before write-back; channel c of the merged image is the inpainting
of channel c against that mask. -/
theorem inpaint_multichannel_adapter (K : Kernels) (data : Buf)
    (rows cols channels rowStride : Nat) (mask : MBuf) (maskStride radius : Nat)
    (method : Int) (hch : channels ≠ 1) :
    (inpaint_bad_pixels_opencv K data rows cols channels rowStride mask maskStride radius
        method =
      writeBack rows data cols channels rowStride
        (mergeChannels rows cols
          ((splitChannels (readView data rows cols channels rowStride)).map
            (fun ch => inpaintK K ch (readMask mask rows cols maskStride) radius
              (inpaintMethodSel method)))))
    ∧ (∀ c, c < channels → ∀ y x,
        (mergeChannels rows cols
          ((splitChannels (readView data rows cols channels rowStride)).map
            (fun ch => inpaintK K ch (readMask mask rows cols maskStride) radius
              (inpaintMethodSel method)))).px y x c =
          (inpaintK K (extractChannel (readView data rows cols channels rowStride) c)
            (readMask mask rows cols maskStride) radius (inpaintMethodSel method)).px y x
            0) := by
  constructor
  · exact inpaint_multi_eq K data rows cols channels rowStride mask maskStride radius
      method hch
  · intro c hc y x
    exact mergeChannels_px rows cols (readView data rows cols channels rowStride) _ c hc y x

/-- Witness for C4 at a concrete 3-channel input. -/
theorem inpaint_multichannel_adapter_witness :
    (3 : Nat) ≠ 1 ∧ (0 : Nat) < 3 ∧
    (mergeChannels 1 1
      ((splitChannels (readView buf5 1 1 3 3)).map
        (fun ch => inpaintK K0 ch (readMask mask0 1 1 1) 3 (inpaintMethodSel 0)))).px 0 0 0 =
      (inpaintK K0 (extractChannel (readView buf5 1 1 3 3) 0) (readMask mask0 1 1 1) 3
        (inpaintMethodSel 0)).px 0 0 0 :=
  ⟨by decide, by decide,
   (inpaint_multichannel_adapter K0 buf5 1 1 3 3 mask0 1 3 0 (by decide)).2 0 (by decide) 0 0⟩

/-- C5: in defect repair, every pixel whose mask sample is 0 is bit-exact
identical before and after the repair, and every pixel whose mask sample
is non-zero receives the synthesized value of the inpainting primitive
for its channel; no masked pixel is left unrepaired. -/
theorem inpaint_mask_semantics (K : Kernels) (data : Buf) (mask : MBuf)
    (rows cols channels rowStride maskStride radius : Nat) (method : Int) (y x c : Nat)
    (hstr : cols * channels ≤ rowStride) (hy : y < rows) (hx : x < cols)
    (hc : c < channels) :
    (mask (y * maskStride + x) = 0 →
      inpaint_bad_pixels_opencv K data rows cols channels rowStride mask maskStride radius
        method (y * rowStride + x * channels + c) =
      data (y * rowStride + x * channels + c))
    ∧ (mask (y * maskStride + x) ≠ 0 →
      inpaint_bad_pixels_opencv K data rows cols channels rowStride mask maskStride radius
        method (y * rowStride + x * channels + c) =
      K.inpaintSynth
        (if channels = 1 then readView data rows cols 1 rowStride
         else extractChannel (readView data rows cols channels rowStride) c)
        (readMask mask rows cols maskStride) radius (inpaintMethodSel method) y x 0) := by
  have hmv : readMask mask rows cols maskStride y x = mask (y * maskStride + x) :=
    readMask_px mask rows cols maskStride y x hy hx
  by_cases h1 : channels = 1
  · subst h1
    have hc0 : c = 0 := Nat.lt_one_iff.mp hc
    subst hc0
    rw [inpaint_single_eq]
    rw [writeBack_sample rows cols 1 rowStride data _ y x 0 hstr hy hx hc]
    rw [inpaintK_px, hmv]
    constructor
    · intro hm0
      rw [if_pos hm0]
      exact readView_px data rows cols 1 rowStride y x 0 hy hx hc
    · intro hmn
      rw [if_neg hmn]
      simp
  · rw [inpaint_multi_eq K data rows cols channels rowStride mask maskStride radius
      method h1]
    rw [writeBack_sample rows cols channels rowStride data _ y x c hstr hy hx hc]
    rw [mergeChannels_px rows cols (readView data rows cols channels rowStride) _ c hc y x]
    rw [inpaintK_px, hmv]
    constructor
    · intro hm0
      rw [if_pos hm0]
      exact readView_px data rows cols channels rowStride y x c hy hx hc
    · intro hmn
      rw [if_neg hmn, if_neg h1]

/-- Witness for C5 at a concrete single-channel input with a clear mask
and at a concrete input with a fully set mask. -/
theorem inpaint_mask_semantics_witness :
    mask0 (0 * 1 + 0) = 0 ∧
    inpaint_bad_pixels_opencv K0 buf5 1 1 1 1 mask0 1 3 0 (0 * 1 + 0 * 1 + 0) =
      buf5 (0 * 1 + 0 * 1 + 0) :=
  ⟨rfl,
   (inpaint_mask_semantics K0 buf5 mask0 1 1 1 1 1 3 0 0 0 0 (by decide) (by decide)
     (by decide) (by decide)).1 rfl⟩

/-- C8: the upscaler resamples the source view into the destination view
with bicubic interpolation; the target of the resample is the declared
destination size (no scale-factor argument is involved), every logical
destination sample receives the resampled value through the destination
stride, and destination padding is untouched, for arbitrary independent
source and destination strides. -/
theorem bicubic_upscale_spec (K : Kernels) (src : Buf)
    (srcRows srcCols channels srcStride : Nat) (dst : Buf)
    (dstRows dstCols dstStride : Nat) (y x c i : Nat)
    (hstr : dstCols * channels ≤ dstStride) (hy : y < dstRows) (hx : x < dstCols)
    (hc : c < channels)
    (hi : ∀ y, y < dstRows → ∀ k, k < dstCols * channels → i ≠ y * dstStride + k) :
    (bicubic_upscale_opencv K src srcRows srcCols channels srcStride dst dstRows dstCols
        dstStride (y * dstStride + x * channels + c) =
      K.resizePx (readView src srcRows srcCols channels srcStride) dstRows dstCols
        Interp.cubic y x c)
    ∧ (bicubic_upscale_opencv K src srcRows srcCols channels srcStride dst dstRows dstCols
        dstStride i = dst i) := by
  constructor
  · exact writeBack_sample dstRows dstCols channels dstStride dst _ y x c hstr hy hx hc
  · exact writeBack_padding dstRows dstCols channels dstStride dst _ i hi

/-- Witness for C8 at a concrete source, destination and padded stride. -/
theorem bicubic_upscale_spec_witness :
    (1 : Nat) * 1 ≤ 2 ∧
    bicubic_upscale_opencv K0 buf5 1 1 1 1 buf5' 1 1 2 1 = buf5' 1 :=
  ⟨by decide,
   (bicubic_upscale_spec K0 buf5 1 1 1 1 buf5' 1 1 2 0 0 0 1 (by decide) (by decide)
     (by decide) (by decide) (by decide)).2⟩

/-- Modelled from the spec: the minimal-strength configuration of the
band-split denoise pipeline, with every per-channel strength equal to
zero in both patch-denoise invocations. -/
def denoiseNlmMinimal (K : Kernels) (data : Buf) (rows cols channels rowStride : Nat) :
    Buf :=
  let img := readView data rows cols channels rowStride
  if channels = 3 then
    writeBack rows data cols channels rowStride
      (let out := bandStage2 K (fastNlMeans K img [0, 0, 0] 3 11 NormType.L1)
       let sub := resizeK K out (quarterDim out.rows) (quarterDim out.cols) Interp.area
       let sub_dn := fastNlMeans K sub [0, 0, 0] 3 21 NormType.L1
       subtractImg out
         (resizeK K (subtractImg sub sub_dn satS16) out.rows out.cols Interp.cubic) satU16)
  else
    writeBack rows data cols channels rowStride (fastNlMeans K img [0] 3 11 NormType.L1)

/-- Modelled from the spec: the minimal-strength configuration of the
simplified high-resolution pipeline, with every per-channel strength
equal to zero. -/
def quattroMinimal (K : Kernels) (data : Buf) (rows cols channels rowStride : Nat) : Buf :=
  let img := readView data rows cols channels rowStride
  if channels = 3 then
    writeBack rows data cols channels rowStride
      (fastNlMeans K img [0, 0, 0] 3 11 NormType.L1)
  else
    writeBack rows data cols channels rowStride (fastNlMeans K img [0] 3 11 NormType.L1)

/-- C9: strength h equal to zero is a valid configuration of both denoise
entry points: each call is total and equal to the minimal-strength
configuration of its pipeline, with every per-channel strength zero; no
error is produced. -/
theorem zero_strength_valid (K : Kernels) (data : Buf)
    (rows cols channels rowStride : Nat) :
    denoise_nlm_opencv K data rows cols channels rowStride 0 =
      denoiseNlmMinimal K data rows cols channels rowStride
    ∧ denoise_quattro_highres_opencv K data rows cols channels rowStride 0 =
      quattroMinimal K data rows cols channels rowStride := by
  constructor
  · simp [denoise_nlm_opencv, denoiseNlmMinimal, bandStage1, bandStage3]
  · simp [denoise_quattro_highres_opencv, quattroMinimal]

theorem denoise_nlm_if (K : Kernels) (data : Buf) (rows cols channels rowStride : Nat)
    (h : ℚ) :
    denoise_nlm_opencv K data rows cols channels rowStride h =
      if channels = 3 then
        writeBack rows data cols channels rowStride
          (bandStage3 K
            (bandStage2 K (bandStage1 K (readView data rows cols channels rowStride) h))
            h)
      else
        writeBack rows data cols channels rowStride
          (fastNlMeans K (readView data rows cols channels rowStride) [h] 3 11
            NormType.L1) :=
  rfl

theorem quattro_if (K : Kernels) (data : Buf) (rows cols channels rowStride : Nat)
    (h : ℚ) :
    denoise_quattro_highres_opencv K data rows cols channels rowStride h =
      if channels = 3 then
        writeBack rows data cols channels rowStride
          (fastNlMeans K (readView data rows cols channels rowStride) [0, h, h * 2] 3 11
            NormType.L1)
      else
        writeBack rows data cols channels rowStride
          (fastNlMeans K (readView data rows cols channels rowStride) [h] 3 11
            NormType.L1) :=
  rfl

theorem bicubic_eq (K : Kernels) (src : Buf) (srcRows srcCols channels srcStride : Nat)
    (dst : Buf) (dstRows dstCols dstStride : Nat) :
    bicubic_upscale_opencv K src srcRows srcCols channels srcStride dst dstRows dstCols
        dstStride =
      writeBack dstRows dst dstCols channels dstStride
        (resizeK K (readView src srcRows srcCols channels srcStride) dstRows dstCols
          Interp.cubic) :=
  rfl

theorem writeBack_sample_congr (rows cols channels rowStride : Nat) (b1 b2 : Buf)
    (img : Img) (y x c : Nat) (hstr : cols * channels ≤ rowStride) (hy : y < rows)
    (hx : x < cols) (hc : c < channels) :
    writeBack rows b1 cols channels rowStride img (y * rowStride + x * channels + c) =
      writeBack rows b2 cols channels rowStride img (y * rowStride + x * channels + c) := by
  rw [writeBack_sample rows cols channels rowStride b1 img y x c hstr hy hx hc,
    writeBack_sample rows cols channels rowStride b2 img y x c hstr hy hx hc]

/-- C6: for every entry point over a valid strided view, no sample
outside the logical region is read or written: every padding sample of
the written buffer is unchanged (write-back copies exactly cols multiplied
by channels samples per row at the destination stride), and the logical
output samples depend only on the logical-region samples of the input
buffers. -/
theorem strided_region_safety (K : Kernels) (data data' src src' : Buf) (mask : MBuf)
    (rows cols channels rowStride maskStride radius srcRows srcCols srcStride : Nat)
    (method : Int) (h : ℚ) (i y x c : Nat)
    (hstr : cols * channels ≤ rowStride)
    (hi : ∀ y, y < rows → ∀ k, k < cols * channels → i ≠ y * rowStride + k)
    (hagree : ∀ y, y < rows → ∀ x, x < cols → ∀ c, c < channels →
      data (y * rowStride + x * channels + c) = data' (y * rowStride + x * channels + c))
    (hsrcagree : ∀ y, y < srcRows → ∀ x, x < srcCols → ∀ c, c < channels →
      src (y * srcStride + x * channels + c) = src' (y * srcStride + x * channels + c))
    (hy : y < rows) (hx : x < cols) (hc : c < channels) :
    (denoise_nlm_opencv K data rows cols channels rowStride h i = data i)
    ∧ (denoise_quattro_highres_opencv K data rows cols channels rowStride h i = data i)
    ∧ (inpaint_bad_pixels_opencv K data rows cols channels rowStride mask maskStride
        radius method i = data i)
    ∧ (bicubic_upscale_opencv K src srcRows srcCols channels srcStride data rows cols
        rowStride i = data i)
    ∧ (denoise_nlm_opencv K data rows cols channels rowStride h
        (y * rowStride + x * channels + c) =
       denoise_nlm_opencv K data' rows cols channels rowStride h
        (y * rowStride + x * channels + c))
    ∧ (denoise_quattro_highres_opencv K data rows cols channels rowStride h
        (y * rowStride + x * channels + c) =
       denoise_quattro_highres_opencv K data' rows cols channels rowStride h
        (y * rowStride + x * channels + c))
    ∧ (inpaint_bad_pixels_opencv K data rows cols channels rowStride mask maskStride
        radius method (y * rowStride + x * channels + c) =
       inpaint_bad_pixels_opencv K data' rows cols channels rowStride mask maskStride
        radius method (y * rowStride + x * channels + c))
    ∧ (bicubic_upscale_opencv K src srcRows srcCols channels srcStride data rows cols
        rowStride (y * rowStride + x * channels + c) =
       bicubic_upscale_opencv K src' srcRows srcCols channels srcStride data rows cols
        rowStride (y * rowStride + x * channels + c)) := by
  have hvd : readView data rows cols channels rowStride =
      readView data' rows cols channels rowStride :=
    readView_congr data data' rows cols channels rowStride
      (fun y x c hy hx hc => hagree y hy x hx c hc)
  have hvs : readView src srcRows srcCols channels srcStride =
      readView src' srcRows srcCols channels srcStride :=
    readView_congr src src' srcRows srcCols channels srcStride
      (fun y x c hy hx hc => hsrcagree y hy x hx c hc)
  refine ⟨?_, ?_, ?_, ?_, ?_, ?_, ?_, ?_⟩
  · rw [denoise_nlm_if]
    by_cases hch : channels = 3
    · rw [if_pos hch]
      exact writeBack_padding rows cols channels rowStride data _ i hi
    · rw [if_neg hch]
      exact writeBack_padding rows cols channels rowStride data _ i hi
  · rw [quattro_if]
    by_cases hch : channels = 3
    · rw [if_pos hch]
      exact writeBack_padding rows cols channels rowStride data _ i hi
    · rw [if_neg hch]
      exact writeBack_padding rows cols channels rowStride data _ i hi
  · by_cases hch : channels = 1
    · subst hch
      rw [inpaint_single_eq]
      exact writeBack_padding rows cols 1 rowStride data _ i hi
    · rw [inpaint_multi_eq K data rows cols channels rowStride mask maskStride radius
        method hch]
      exact writeBack_padding rows cols channels rowStride data _ i hi
  · rw [bicubic_eq]
    exact writeBack_padding rows cols channels rowStride data _ i hi
  · rw [denoise_nlm_if, denoise_nlm_if, hvd]
    by_cases hch : channels = 3
    · rw [if_pos hch, if_pos hch]
      exact writeBack_sample_congr rows cols channels rowStride data data' _ y x c hstr
        hy hx hc
    · rw [if_neg hch, if_neg hch]
      exact writeBack_sample_congr rows cols channels rowStride data data' _ y x c hstr
        hy hx hc
  · rw [quattro_if, quattro_if, hvd]
    by_cases hch : channels = 3
    · rw [if_pos hch, if_pos hch]
      exact writeBack_sample_congr rows cols channels rowStride data data' _ y x c hstr
        hy hx hc
    · rw [if_neg hch, if_neg hch]
      exact writeBack_sample_congr rows cols channels rowStride data data' _ y x c hstr
        hy hx hc
  · by_cases hch : channels = 1
    · subst hch
      rw [inpaint_single_eq, inpaint_single_eq, hvd]
      exact writeBack_sample_congr rows cols 1 rowStride data data' _ y x c hstr hy hx hc
    · rw [inpaint_multi_eq K data rows cols channels rowStride mask maskStride radius
        method hch,
        inpaint_multi_eq K data' rows cols channels rowStride mask maskStride radius
        method hch, hvd]
      exact writeBack_sample_congr rows cols channels rowStride data data' _ y x c hstr
        hy hx hc
  · rw [bicubic_eq, bicubic_eq, hvs]

/-- Witness for C6 at a concrete padded single-channel buffer. -/
theorem strided_region_safety_witness :
    (1 : Nat) * 1 ≤ 3 ∧
    denoise_nlm_opencv K0 buf5 1 1 1 3 0 1 = buf5 1 ∧
    inpaint_bad_pixels_opencv K0 buf5 1 1 1 3 mask1 1 3 0 1 = buf5 1 := by
  have hall := strided_region_safety K0 buf5 buf5' buf5 buf5 mask1 1 1 1 3 1 3 1 1 1 0 0
    1 0 0 0 (by decide) (by decide) (by decide) (by decide) (by decide) (by decide)
    (by decide)
  exact ⟨by decide, hall.1, hall.2.2.1⟩

end X3f
